import Mathlib

/-!
Verification of the chunked multipart-upload orchestrator in
`src/main.rs` of rust-upload-progress.

The orchestrator is the single function `upload_file`:
  * it opens a multipart session (`create_multipart_upload`),
  * reads the file size and computes the chunk plan
    (`chunk_count`, `size_of_last_chunk`, lines 72-77),
  * rejects empty files and plans with more than `MAX_CHUNKS` parts
    (lines 79-84),
  * loops over chunk indices uploading one byte range per part and
    recording a `CompletedPart` and a progress position (lines 98-149),
  * finalizes the session with the collected parts (lines 152-166).

We embed this shallowly: the storage backend is a `sink` function from
part number to an outcome (success carrying an optional e-tag, or
failure, modelling the `?` propagation of `upload_part` errors), and the
run produces a trace of the externally visible calls plus a result.
Machine integers (`u64`) are modelled as `Nat`; the one place the code
converts to `i32` (`chunk_index as i32 + 1`, line 129) is modelled with
explicit two's-complement wrapping.
-/

/-- `CHUNK_SIZE` from `main.rs` line 20: 5 MiB in bytes. -/
def CHUNK_SIZE : Nat := 1024 * 1024 * 5

/-- `MAX_CHUNKS` from `main.rs` line 21. -/
def MAX_CHUNKS : Nat := 10000

/-- The `CompletedPart` record pushed at lines 141-146: an e-tag string
(`upload_part_res.e_tag.unwrap_or_default()`) and the part number. -/
structure CompletedPart where
  e_tag : String
  part_number : Int
deriving Repr, DecidableEq

/-- Outcome of one `upload_part` network call: success carries the
optional `e_tag` of the response, failure models the `Err` that `?`
propagates at line 140. -/
inductive UploadOutcome where
  | success (e_tag : Option String)
  | failure
deriving Repr, DecidableEq

/-- Error taxonomy of the run, following §7 of the design: the panic at
line 80 is `emptyFile`, the panic at line 83 is `tooManyParts`, and the
`?`-propagated part failure is `partUploadFailed`. -/
inductive UploadError where
  | emptyFile
  | tooManyParts
  | partUploadFailed
deriving Repr, DecidableEq

/-- Externally visible calls made by `upload_file`, in program order:
the session-open call (line 28), each `upload_part` call with its part
number, byte offset and length (lines 121-140), each progress-bar
position update (line 147), and the finalize call with the list of
completed parts (lines 158-166). -/
inductive Event where
  | createMultipartUpload
  | uploadPartCall (part_number : Int) (offset length : Nat)
  | setPosition (pos : Nat)
  | completeMultipartUpload (parts : List CompletedPart)
deriving Repr, DecidableEq

/-- The chunk plan computed at lines 72-77: `chunk_count` and
`size_of_last_chunk`. -/
structure UploadPlanData where
  chunk_count : Nat
  size_of_last_chunk : Nat
deriving Repr, DecidableEq

/-- Lines 72-77 of `main.rs`: `chunk_count = file_size / CHUNK_SIZE + 1`,
`size_of_last_chunk = file_size % CHUNK_SIZE`, and if the remainder is
zero the last chunk becomes a full chunk and the count is decremented.
Generalised over the chunk size, which the source fixes to `CHUNK_SIZE`. -/
def planChunks (file_size chunk_size : Nat) : UploadPlanData :=
  let chunk_count := file_size / chunk_size + 1
  let size_of_last_chunk := file_size % chunk_size
  if size_of_last_chunk = 0 then
    { chunk_count := chunk_count - 1, size_of_last_chunk := chunk_size }
  else
    { chunk_count := chunk_count, size_of_last_chunk := size_of_last_chunk }

/-- The planner with its error checks, lines 72-84: the plan is computed,
then the empty-file panic (lines 79-81) and the too-many-chunks panic
(lines 82-84) fire in that order. -/
def plan (file_size chunk_size : Nat) : Except UploadError UploadPlanData :=
  let p := planChunks file_size chunk_size
  if file_size = 0 then .error .emptyFile
  else if MAX_CHUNKS < p.chunk_count then .error .tooManyParts
  else .ok p

/-- Rust `n as i32` for an unsigned `n`: keep the low 32 bits and
reinterpret as two's complement. -/
def i32cast (n : Nat) : Int :=
  let m := n % 4294967296
  if m < 2147483648 then (m : Int) else (m : Int) - 4294967296

/-- Wrapping `i32` addition (two's complement). -/
def i32add (a b : Int) : Int :=
  (a + b + 2147483648) % 4294967296 - 2147483648

/-- Line 129: `let part_number = (chunk_index as i32) + 1;`. -/
def part_number (chunk_index : Nat) : Int :=
  i32add (i32cast chunk_index) 1

/-- The per-iteration chunk length, lines 99-103: the last index gets
`size_of_last_chunk`, every other index gets `CHUNK_SIZE`. -/
def thisChunk (chunk_count size_of_last_chunk chunk_index : Nat) : Nat :=
  if chunk_count - 1 = chunk_index then size_of_last_chunk else CHUNK_SIZE

/-- The upload loop of lines 98-149, unrolled from `chunk_index` for `k`
remaining iterations (the top-level call uses `chunk_index = 0` and
`k = chunk_count`).  Each iteration reads the byte range
`(chunk_index * CHUNK_SIZE, this_chunk)`, calls `upload_part` with
`part_number = (chunk_index as i32) + 1`, and on success pushes the
`CompletedPart` (e-tag defaulted to `""` when absent, line 143) and sets
the progress position to `uploaded + this_chunk` (line 147); on failure
the `?` at line 140 aborts the loop.  Returns the emitted events and
`some` completed parts, or `none` if a part upload failed. -/
def runParts (sink : Int → UploadOutcome)
    (chunk_count size_of_last_chunk : Nat) :
    Nat → Nat → List Event × Option (List CompletedPart)
  | _, 0 => ([], some [])
  | chunk_index, k + 1 =>
    let this_chunk := thisChunk chunk_count size_of_last_chunk chunk_index
    let uploaded := chunk_index * CHUNK_SIZE
    let pn := part_number chunk_index
    match sink pn with
    | .failure => ([Event.uploadPartCall pn uploaded this_chunk], none)
    | .success e_tag =>
      let rest := runParts sink chunk_count size_of_last_chunk (chunk_index + 1) k
      (Event.uploadPartCall pn uploaded this_chunk ::
         Event.setPosition (uploaded + this_chunk) :: rest.1,
       rest.2.map (fun ps =>
         { e_tag := e_tag.getD "", part_number := pn } :: ps))

instance exceptDecEq {ε α : Type} [DecidableEq ε] [DecidableEq α] :
    DecidableEq (Except ε α) := fun x y =>
  match x, y with
  | .ok a, .ok b =>
    if h : a = b then .isTrue (by rw [h]) else .isFalse (by simp [h])
  | .error a, .error b =>
    if h : a = b then .isTrue (by rw [h]) else .isFalse (by simp [h])
  | .ok _, .error _ => .isFalse (by simp)
  | .error _, .ok _ => .isFalse (by simp)

/-- Result of one run of `upload_file`: the trace of externally visible
calls and either the list of completed parts handed to the finalize call
or the error that aborted the run. -/
structure RunResult where
  trace : List Event
  result : Except UploadError (List CompletedPart)
deriving Repr, DecidableEq

/-- `upload_file` of `main.rs` lines 23-171, with the storage backend
abstracted to `sink`.  Program order: the `create_multipart_upload` call
happens first (lines 28-35), before the file size is read and checked;
then the plan is computed (lines 72-77) and the empty-file and
too-many-chunks panics fire (lines 79-84); then the part loop runs
(lines 98-149); on full success the `complete_multipart_upload` call is
made with the accumulated parts (lines 152-166). -/
def upload_file (file_size : Nat) (sink : Int → UploadOutcome) : RunResult :=
  let tr0 := [Event.createMultipartUpload]
  let p := planChunks file_size CHUNK_SIZE
  if file_size = 0 then
    { trace := tr0, result := .error .emptyFile }
  else if MAX_CHUNKS < p.chunk_count then
    { trace := tr0, result := .error .tooManyParts }
  else
    let r := runParts sink p.chunk_count p.size_of_last_chunk 0 p.chunk_count
    match r.2 with
    | none => { trace := tr0 ++ r.1, result := .error .partUploadFailed }
    | some parts =>
      { trace := tr0 ++ r.1 ++ [Event.completeMultipartUpload parts],
        result := .ok parts }

/-- The `upload_part` calls of a trace, as `(part_number, offset, length)`
triples in order. -/
def uploadCalls (tr : List Event) : List (Int × Nat × Nat) :=
  tr.filterMap fun e =>
    match e with
    | .uploadPartCall pn off len => some (pn, off, len)
    | _ => none

/-- The progress positions reported along a trace, in order. -/
def positions (tr : List Event) : List Nat :=
  tr.filterMap fun e =>
    match e with
    | .setPosition p => some p
    | _ => none

/-- Spec-side expectation (§8, driver bullet): a run over a plan of `n`
parts yields `n` completed parts, the `i`-th (0-based) carrying
`part_number = i + 1` and the sink's e-tag for that part (defaulted to
`""`). -/
def specCompletedParts (etagf : Int → Option String) (n : Nat) :
    List CompletedPart :=
  (List.range n).map fun (i : Nat) =>
    { e_tag := (etagf ((i : Int) + 1)).getD "", part_number := (i : Int) + 1 }

/-- Spec-side expectation (§4.2): part `i` (0-based) is uploaded with
part number `i + 1`, read from offset `i * CHUNK_SIZE`, with length
`CHUNK_SIZE` for every index except the last, which uses the plan's
last-part size. -/
def specUploadCalls (chunk_count size_of_last_chunk : Nat) :
    List (Int × Nat × Nat) :=
  (List.range chunk_count).map fun (i : Nat) =>
    Prod.mk ((i : Int) + 1)
      (Prod.mk (i * CHUNK_SIZE)
        (if i = chunk_count - 1 then size_of_last_chunk else CHUNK_SIZE))

/-- Spec-side expectation (§4.3): the progress position after part `i`
completes is the end of that part's byte range. -/
def specPositions (chunk_count size_of_last_chunk : Nat) : List Nat :=
  (List.range chunk_count).map fun i =>
    i * CHUNK_SIZE + thisChunk chunk_count size_of_last_chunk i

/-! ### Basic facts about the embedded definitions -/

theorem part_number_eq {n : Nat} (h : n + 1 < 2147483648) :
    part_number n = (n : Int) + 1 := by
  simp only [part_number, i32cast, i32add]
  rw [Nat.mod_eq_of_lt (by omega), if_pos (show n < 2147483648 by omega)]
  omega

theorem planChunks_inv {fs cs : Nat} (h0 : 0 < fs) (hc : 0 < cs) :
    1 ≤ (planChunks fs cs).chunk_count ∧
    ((planChunks fs cs).chunk_count - 1) * cs
        + (planChunks fs cs).size_of_last_chunk = fs ∧
    0 < (planChunks fs cs).size_of_last_chunk ∧
    (planChunks fs cs).size_of_last_chunk ≤ cs := by
  have hdm := Nat.div_add_mod fs cs
  have hml := Nat.mod_lt fs hc
  simp only [planChunks]
  split
  · rename_i hmod
    have hq : 0 < fs / cs := by
      rcases Nat.eq_zero_or_pos (fs / cs) with hz | hp
      · rw [hz] at hdm
        omega
      · exact hp
    obtain ⟨q, hqe⟩ : ∃ q, fs / cs = q + 1 :=
      ⟨(fs / cs).pred, (Nat.succ_pred_eq_of_pos hq).symm⟩
    rw [hqe] at hdm
    rw [Nat.mul_add, Nat.mul_one] at hdm
    simp only
    rw [hqe]
    refine ⟨by omega, ?_, hc, le_refl cs⟩
    rw [show q + 1 + 1 - 1 - 1 = q from by omega, Nat.mul_comm q cs]
    omega
  · rename_i hmod
    simp only
    refine ⟨Nat.le_add_left 1 (fs / cs), ?_, by omega, by omega⟩
    rw [Nat.add_sub_cancel, Nat.mul_comm (fs / cs) cs]
    omega

theorem plan_ok {fs cs : Nat} {p : UploadPlanData}
    (h : plan fs cs = .ok p) :
    p = planChunks fs cs ∧ 0 < fs ∧
    (planChunks fs cs).chunk_count ≤ MAX_CHUNKS := by
  simp only [plan] at h
  split at h
  · exact absurd h (by simp)
  · split at h
    · exact absurd h (by simp)
    · rename_i h1 h2
      refine ⟨?_, by omega, by omega⟩
      simpa using h.symm

theorem upload_file_of_runParts_some {fs : Nat} {sink : Int → UploadOutcome}
    {p : UploadPlanData} {parts : List CompletedPart}
    (hp : plan fs CHUNK_SIZE = .ok p)
    (hr : (runParts sink p.chunk_count p.size_of_last_chunk 0 p.chunk_count).2
            = some parts) :
    upload_file fs sink =
      { trace := Event.createMultipartUpload ::
          ((runParts sink p.chunk_count p.size_of_last_chunk 0 p.chunk_count).1
            ++ [Event.completeMultipartUpload parts]),
        result := .ok parts } := by
  obtain ⟨hpe, h0, hmax⟩ := plan_ok hp
  subst hpe
  simp only [upload_file, if_neg (by omega : ¬ fs = 0),
    if_neg (by omega : ¬ MAX_CHUNKS < (planChunks fs CHUNK_SIZE).chunk_count)]
  rw [hr]
  rfl

theorem upload_file_of_runParts_none {fs : Nat} {sink : Int → UploadOutcome}
    {p : UploadPlanData}
    (hp : plan fs CHUNK_SIZE = .ok p)
    (hr : (runParts sink p.chunk_count p.size_of_last_chunk 0 p.chunk_count).2
            = none) :
    upload_file fs sink =
      { trace := Event.createMultipartUpload ::
          (runParts sink p.chunk_count p.size_of_last_chunk 0 p.chunk_count).1,
        result := .error .partUploadFailed } := by
  obtain ⟨hpe, h0, hmax⟩ := plan_ok hp
  subst hpe
  simp only [upload_file, if_neg (by omega : ¬ fs = 0),
    if_neg (by omega : ¬ MAX_CHUNKS < (planChunks fs CHUNK_SIZE).chunk_count)]
  rw [hr]
  rfl

theorem runParts_succ_success {sink : Int → UploadOutcome} {cc last idx k : Nat}
    {e : Option String} (hs : sink (part_number idx) = .success e) :
    runParts sink cc last idx (k + 1) =
      (Event.uploadPartCall (part_number idx) (idx * CHUNK_SIZE)
          (thisChunk cc last idx) ::
        Event.setPosition (idx * CHUNK_SIZE + thisChunk cc last idx) ::
        (runParts sink cc last (idx + 1) k).1,
       ((runParts sink cc last (idx + 1) k).2).map
         (fun ps => { e_tag := e.getD "", part_number := part_number idx } :: ps)) := by
  simp only [runParts, hs]

theorem runParts_succ_failure {sink : Int → UploadOutcome} {cc last idx k : Nat}
    (hs : sink (part_number idx) = .failure) :
    runParts sink cc last idx (k + 1) =
      ([Event.uploadPartCall (part_number idx) (idx * CHUNK_SIZE)
          (thisChunk cc last idx)], none) := by
  simp only [runParts, hs]

theorem runParts_success_run (etagf : Int → Option String) (cc last : Nat) :
    ∀ k idx,
      (runParts (fun pn => .success (etagf pn)) cc last idx k).2 =
          some ((List.range' idx k).map fun i =>
            { e_tag := (etagf (part_number i)).getD "",
              part_number := part_number i }) ∧
      uploadCalls
          (runParts (fun pn => .success (etagf pn)) cc last idx k).1 =
        (List.range' idx k).map (fun (i : Nat) =>
          Prod.mk (part_number i)
            (Prod.mk (i * CHUNK_SIZE) (thisChunk cc last i))) ∧
      positions
          (runParts (fun pn => .success (etagf pn)) cc last idx k).1 =
        (List.range' idx k).map fun i =>
          i * CHUNK_SIZE + thisChunk cc last i := by
  intro k
  induction k with
  | zero =>
    intro idx
    simp [runParts, uploadCalls, positions]
  | succ k ih =>
    intro idx
    obtain ⟨ih1, ih2, ih3⟩ := ih (idx + 1)
    rw [List.range'_succ]
    rw [runParts_succ_success (e := etagf (part_number idx)) rfl]
    refine ⟨?_, ?_, ?_⟩
    · simp only [List.map_cons, ih1, Option.map_some']
    · simp only [uploadCalls, List.filterMap_cons] at ih2 ⊢
      simp only [List.map_cons]
      rw [← ih2]
    · simp only [positions, List.filterMap_cons] at ih3 ⊢
      simp only [List.map_cons]
      rw [← ih3]

theorem runParts_not_complete (sink : Int → UploadOutcome) (cc last : Nat) :
    ∀ k idx ps,
      Event.completeMultipartUpload ps ∉ (runParts sink cc last idx k).1 := by
  intro k
  induction k with
  | zero => intro idx ps; simp [runParts]
  | succ k ih =>
    intro idx ps
    rcases hs : sink (part_number idx) with e | _
    · rw [runParts_succ_success hs]
      simp only [List.mem_cons, not_or]
      exact ⟨by simp, by simp, ih (idx + 1) ps⟩
    · rw [runParts_succ_failure hs]
      simp

theorem runParts_some_numbers (sink : Int → UploadOutcome) (cc last : Nat) :
    ∀ k idx l,
      (runParts sink cc last idx k).2 = some l →
      l.map CompletedPart.part_number = (List.range' idx k).map part_number := by
  intro k
  induction k with
  | zero =>
    intro idx l h
    simp only [runParts, Option.some.injEq] at h
    subst h
    simp
  | succ k ih =>
    intro idx l h
    rcases hs : sink (part_number idx) with e | _
    · rw [runParts_succ_success hs] at h
      rcases hr : (runParts sink cc last (idx + 1) k).2 with _ | l'
      · rw [hr] at h
        simp at h
      · rw [hr] at h
        simp only [Option.map_some', Option.some.injEq] at h
        subst h
        rw [List.range'_succ]
        simp only [List.map_cons]
        rw [ih (idx + 1) l' hr]
    · rw [runParts_succ_failure hs] at h
      simp at h

theorem runParts_fail_at (etagf : Int → Option String) (cc last j : Nat)
    (hjc : j ≤ cc) (hcc : cc ≤ MAX_CHUNKS) :
    ∀ k idx, idx + k = cc → idx < j →
      (runParts
          (fun pn => if pn < (j : Int) then .success (etagf pn) else .failure)
          cc last idx k).2 = none ∧
      (uploadCalls (runParts
          (fun pn => if pn < (j : Int) then .success (etagf pn) else .failure)
          cc last idx k).1).map Prod.fst =
        (List.range' idx (j - idx)).map part_number := by
  have hM : MAX_CHUNKS = 10000 := rfl
  intro k
  induction k with
  | zero =>
    intro idx h1 h2
    omega
  | succ k ih =>
    intro idx h1 h2
    have hpn : part_number idx = (idx : Int) + 1 := part_number_eq (by omega)
    by_cases hj : idx + 1 < j
    · have hlt : (idx : Int) + 1 < (j : Int) := by exact_mod_cast hj
      have hs : (fun pn =>
          if pn < (j : Int) then UploadOutcome.success (etagf pn) else .failure)
          (part_number idx) = .success (etagf ((idx : Int) + 1)) := by
        rw [hpn]
        simp [hlt]
      obtain ⟨ih1, ih2⟩ := ih (idx + 1) (by omega) hj
      rw [runParts_succ_success hs]
      refine ⟨by rw [ih1]; rfl, ?_⟩
      rw [show j - idx = (j - (idx + 1)) + 1 from by omega, List.range'_succ]
      simp only [uploadCalls, List.filterMap_cons] at ih2 ⊢
      simp only [List.map_cons]
      rw [← ih2]
    · have hge : ¬ ((idx : Int) + 1 < (j : Int)) := by
        intro hlt
        exact hj (by exact_mod_cast hlt)
      have hs : (fun pn =>
          if pn < (j : Int) then UploadOutcome.success (etagf pn) else .failure)
          (part_number idx) = .failure := by
        rw [hpn]
        simp [hge]
      rw [runParts_succ_failure hs]
      refine ⟨rfl, ?_⟩
      rw [show j - idx = 1 from by omega]
      simp [uploadCalls]

theorem map_part_number_range {n : Nat} (h : n ≤ MAX_CHUNKS) :
    (List.range n).map part_number =
      (List.range n).map (fun (i : Nat) => (i : Int) + 1) := by
  have hM : MAX_CHUNKS = 10000 := rfl
  apply List.map_congr_left
  intro a ha
  rw [List.mem_range] at ha
  exact part_number_eq (by omega)

theorem upload_file_success_result (fs : Nat) (etagf : Int → Option String)
    (p : UploadPlanData) (hp : plan fs CHUNK_SIZE = .ok p) :
    (upload_file fs (fun pn => .success (etagf pn))).result =
      .ok ((List.range p.chunk_count).map fun i =>
        { e_tag := (etagf (part_number i)).getD "",
          part_number := part_number i }) := by
  obtain ⟨h1, -, -⟩ :=
    runParts_success_run etagf p.chunk_count p.size_of_last_chunk
      p.chunk_count 0
  rw [← List.range_eq_range'] at h1
  rw [upload_file_of_runParts_some hp h1]

theorem upload_file_success_calls (fs : Nat) (etagf : Int → Option String)
    (p : UploadPlanData) (hp : plan fs CHUNK_SIZE = .ok p) :
    uploadCalls (upload_file fs (fun pn => .success (etagf pn))).trace =
      (List.range p.chunk_count).map (fun (i : Nat) =>
        Prod.mk (part_number i)
          (Prod.mk (i * CHUNK_SIZE)
            (thisChunk p.chunk_count p.size_of_last_chunk i))) := by
  obtain ⟨h1, h2, -⟩ :=
    runParts_success_run etagf p.chunk_count p.size_of_last_chunk
      p.chunk_count 0
  rw [← List.range_eq_range'] at h1 h2
  rw [upload_file_of_runParts_some hp h1]
  simp only [uploadCalls, List.filterMap_cons, List.filterMap_append] at h2 ⊢
  rw [h2]
  simp

theorem upload_file_success_positions (fs : Nat) (etagf : Int → Option String)
    (p : UploadPlanData) (hp : plan fs CHUNK_SIZE = .ok p) :
    positions (upload_file fs (fun pn => .success (etagf pn))).trace =
      (List.range p.chunk_count).map fun i =>
        i * CHUNK_SIZE + thisChunk p.chunk_count p.size_of_last_chunk i := by
  obtain ⟨h1, -, h3⟩ :=
    runParts_success_run etagf p.chunk_count p.size_of_last_chunk
      p.chunk_count 0
  rw [← List.range_eq_range'] at h1 h3
  rw [upload_file_of_runParts_some hp h1]
  simp only [positions, List.filterMap_cons, List.filterMap_append] at h3 ⊢
  rw [h3]
  simp

/-- C1: for every `total_size > 0` and `chunk_size > 0` the planner
computes `part_count = total_size / chunk_size + 1`, and when the
remainder is zero sets `last_part_size = chunk_size` and decrements the
count; the result satisfies `(part_count - 1) * chunk_size +
last_part_size = total_size` and `0 < last_part_size ≤ chunk_size`. -/
theorem planner_correct (total_size chunk_size : Nat)
    (h0 : 0 < total_size) (hc : 0 < chunk_size) :
    (planChunks total_size chunk_size).chunk_count =
      (if total_size % chunk_size = 0
        then total_size / chunk_size + 1 - 1
        else total_size / chunk_size + 1) ∧
    (planChunks total_size chunk_size).size_of_last_chunk =
      (if total_size % chunk_size = 0
        then chunk_size
        else total_size % chunk_size) ∧
    ((planChunks total_size chunk_size).chunk_count - 1) * chunk_size
        + (planChunks total_size chunk_size).size_of_last_chunk
      = total_size ∧
    0 < (planChunks total_size chunk_size).size_of_last_chunk ∧
    (planChunks total_size chunk_size).size_of_last_chunk ≤ chunk_size := by
  obtain ⟨h1, h2, h3, h4⟩ := planChunks_inv h0 hc
  refine ⟨?_, ?_, h2, h3, h4⟩
  · simp only [planChunks]
    split <;> rename_i hm <;> simp [hm]
  · simp only [planChunks]
    split <;> rename_i hm <;> simp [hm]

theorem planner_correct_witness :
    0 < 7 ∧ 0 < 5 ∧
    ((planChunks 7 5).chunk_count =
        (if 7 % 5 = 0 then 7 / 5 + 1 - 1 else 7 / 5 + 1) ∧
      (planChunks 7 5).size_of_last_chunk =
        (if 7 % 5 = 0 then 5 else 7 % 5) ∧
      ((planChunks 7 5).chunk_count - 1) * 5
          + (planChunks 7 5).size_of_last_chunk = 7 ∧
      0 < (planChunks 7 5).size_of_last_chunk ∧
      (planChunks 7 5).size_of_last_chunk ≤ 5) :=
  ⟨by decide, by decide, planner_correct 7 5 (by decide) (by decide)⟩

/-- C3 counterexample: on an empty file the run does fail with the
empty-file error, but its trace already contains the session-open call
(`create_multipart_upload`, lines 28-35 precede the size check at line
79), so the failure does not occur before every storage-backend call. -/
theorem empty_file_backend_call :
    (upload_file 0 (fun _ => UploadOutcome.success none)).result =
        .error .emptyFile ∧
    Event.createMultipartUpload ∈
      (upload_file 0 (fun _ => UploadOutcome.success none)).trace := by
  decide

/-- C3 (amended): if `total_size = 0` the run fails with the empty-file
error, the failure is fatal, and no part upload and no finalize call is
made — the only storage-backend call issued before the failure is the
session-open call. -/
theorem empty_file_aborts (sink : Int → UploadOutcome) :
    (upload_file 0 sink).result = .error .emptyFile ∧
    (upload_file 0 sink).trace = [Event.createMultipartUpload] :=
  ⟨rfl, rfl⟩

/-- C4: whenever the computed `chunk_count` exceeds `MAX_CHUNKS` the
planner fails with the too-many-parts error; in particular it does so
for `total_size = chunk_size * (MAX_CHUNKS + 1)`. -/
theorem too_many_parts (total_size chunk_size : Nat)
    (h : MAX_CHUNKS < (planChunks total_size chunk_size).chunk_count) :
    plan total_size chunk_size = .error .tooManyParts ∧
    plan (chunk_size * (MAX_CHUNKS + 1)) chunk_size =
      .error .tooManyParts := by
  have h0 : ¬ total_size = 0 := by
    rintro rfl
    have hz : (planChunks 0 chunk_size).chunk_count = 0 := by
      simp [planChunks]
    rw [hz] at h
    exact absurd h (Nat.not_lt_zero _)
  have hcs : 0 < chunk_size := by
    rcases Nat.eq_zero_or_pos chunk_size with rfl | h'
    · have hz : (planChunks total_size 0).chunk_count = 1 := by
        simp [planChunks, Nat.mod_zero, Nat.div_zero, h0]
      rw [hz] at h
      exact absurd h (by decide)
    · exact h'
  constructor
  · simp only [plan]
    rw [if_neg h0, if_pos h]
  · have hmod : chunk_size * (MAX_CHUNKS + 1) % chunk_size = 0 :=
      Nat.mul_mod_right chunk_size (MAX_CHUNKS + 1)
    have hdiv : chunk_size * (MAX_CHUNKS + 1) / chunk_size = MAX_CHUNKS + 1 :=
      Nat.mul_div_cancel_left (MAX_CHUNKS + 1) hcs
    have hne : ¬ chunk_size * (MAX_CHUNKS + 1) = 0 :=
      Nat.ne_of_gt (Nat.mul_pos hcs (Nat.succ_pos MAX_CHUNKS))
    have hpc : planChunks (chunk_size * (MAX_CHUNKS + 1)) chunk_size =
        ⟨MAX_CHUNKS + 1, chunk_size⟩ := by
      simp [planChunks, hmod, hdiv]
    simp only [plan, hpc]
    rw [if_neg hne, if_pos (Nat.lt_succ_self MAX_CHUNKS)]

theorem too_many_parts_witness :
    MAX_CHUNKS < (planChunks 10001 1).chunk_count ∧
    (plan 10001 1 = .error .tooManyParts ∧
      plan (1 * (MAX_CHUNKS + 1)) 1 = .error .tooManyParts) :=
  ⟨by decide, too_many_parts 10001 1 (by decide)⟩

/-- C5: `total_size = 13 MiB`, `chunk_size = 5 MiB` gives 3 parts of
sizes 5 MiB, 5 MiB, 3 MiB; `total_size = 10 MiB` gives 2 parts both
exactly 5 MiB. -/
theorem concrete_plans :
    plan (13 * 1024 * 1024) CHUNK_SIZE =
      .ok { chunk_count := 3, size_of_last_chunk := 3 * 1024 * 1024 } ∧
    (List.range 3).map (thisChunk 3 (3 * 1024 * 1024)) =
      [CHUNK_SIZE, CHUNK_SIZE, 3 * 1024 * 1024] ∧
    plan (10 * 1024 * 1024) CHUNK_SIZE =
      .ok { chunk_count := 2, size_of_last_chunk := CHUNK_SIZE } ∧
    (List.range 2).map (thisChunk 2 CHUNK_SIZE) =
      [CHUNK_SIZE, CHUNK_SIZE] := by
  decide

/-- C10: under the `MAX_CHUNKS` bound the `u64` to `i32` conversion at
line 129 never wraps: `part_number chunk_index` is exactly
`chunk_index + 1` and lies in `[1, 10000]`. -/
theorem part_number_no_wrap (chunk_count chunk_index : Nat)
    (h1 : chunk_count ≤ MAX_CHUNKS) (h2 : chunk_index < chunk_count) :
    part_number chunk_index = (chunk_index : Int) + 1 ∧
    1 ≤ part_number chunk_index ∧
    part_number chunk_index ≤ 10000 := by
  have hM : MAX_CHUNKS = 10000 := rfl
  have h := part_number_eq (n := chunk_index) (by omega)
  refine ⟨h, ?_, ?_⟩ <;> rw [h] <;> omega

theorem part_number_no_wrap_witness :
    10000 ≤ MAX_CHUNKS ∧ 9999 < 10000 ∧
    (part_number 9999 = (9999 : Int) + 1 ∧
      1 ≤ part_number 9999 ∧ part_number 9999 ≤ 10000) :=
  ⟨by decide, by decide, part_number_no_wrap 10000 9999 (by decide) (by decide)⟩

/-- C2: driving a plan of `N` parts with an always-succeeding sink
yields exactly the `N` completed parts with part numbers `1..N` (no
duplicates, no gaps): part `i` (0-based) is uploaded with part number
`i + 1`, read from offset `i * CHUNK_SIZE`, with length `CHUNK_SIZE`
for every index except the last, which uses the plan's last-part
size. -/
theorem upload_driver_run (file_size : Nat) (etagf : Int → Option String)
    (p : UploadPlanData) (hp : plan file_size CHUNK_SIZE = .ok p) :
    (upload_file file_size (fun pn => .success (etagf pn))).result =
        .ok (specCompletedParts etagf p.chunk_count) ∧
    uploadCalls
        (upload_file file_size (fun pn => .success (etagf pn))).trace =
      specUploadCalls p.chunk_count p.size_of_last_chunk ∧
    (specCompletedParts etagf p.chunk_count).map CompletedPart.part_number =
      (List.range p.chunk_count).map (fun (i : Nat) => (i : Int) + 1) ∧
    List.Pairwise (· < ·)
      ((specCompletedParts etagf p.chunk_count).map
        CompletedPart.part_number) := by
  obtain ⟨hpe, h0, hmax⟩ := plan_ok hp
  have hccmax : p.chunk_count ≤ MAX_CHUNKS := by rw [hpe]; exact hmax
  have hM : MAX_CHUNKS = 10000 := rfl
  have hproj : (specCompletedParts etagf p.chunk_count).map
      CompletedPart.part_number =
      (List.range p.chunk_count).map (fun (i : Nat) => (i : Int) + 1) := by
    simp only [specCompletedParts, List.map_map]
    rfl
  refine ⟨?_, ?_, hproj, ?_⟩
  · rw [upload_file_success_result file_size etagf p hp]
    congr 1
    simp only [specCompletedParts]
    apply List.map_congr_left
    intro a ha
    rw [List.mem_range] at ha
    rw [part_number_eq (by omega)]
  · rw [upload_file_success_calls file_size etagf p hp]
    simp only [specUploadCalls]
    apply List.map_congr_left
    intro a ha
    rw [List.mem_range] at ha
    rw [part_number_eq (by omega)]
    simp only [thisChunk]
    rcases eq_or_ne a (p.chunk_count - 1) with hh | hh
    · simp [hh]
    · simp [hh, Ne.symm hh]
  · rw [hproj, List.pairwise_map]
    exact (List.pairwise_lt_range p.chunk_count).imp (fun h => by omega)

theorem upload_driver_run_witness :
    plan 7 CHUNK_SIZE = .ok { chunk_count := 1, size_of_last_chunk := 7 } ∧
    ((upload_file 7 (fun pn =>
          .success ((fun _ => (none : Option String)) pn))).result =
        .ok (specCompletedParts (fun _ => (none : Option String))
          ({ chunk_count := 1, size_of_last_chunk := 7 } :
            UploadPlanData).chunk_count) ∧
      uploadCalls (upload_file 7 (fun pn =>
          .success ((fun _ => (none : Option String)) pn))).trace =
        specUploadCalls
          ({ chunk_count := 1, size_of_last_chunk := 7 } :
            UploadPlanData).chunk_count
          ({ chunk_count := 1, size_of_last_chunk := 7 } :
            UploadPlanData).size_of_last_chunk ∧
      (specCompletedParts (fun _ => (none : Option String))
          ({ chunk_count := 1, size_of_last_chunk := 7 } :
            UploadPlanData).chunk_count).map CompletedPart.part_number =
        (List.range ({ chunk_count := 1, size_of_last_chunk := 7 } :
            UploadPlanData).chunk_count).map
          (fun (i : Nat) => (i : Int) + 1) ∧
      List.Pairwise (· < ·)
        ((specCompletedParts (fun _ => (none : Option String))
            ({ chunk_count := 1, size_of_last_chunk := 7 } :
              UploadPlanData).chunk_count).map CompletedPart.part_number)) :=
  ⟨by decide,
    upload_driver_run 7 (fun _ => (none : Option String))
      { chunk_count := 1, size_of_last_chunk := 7 } (by decide)⟩

/-- C9: when a successful part upload returns no e-tag the driver does
not fail: it records the completed part with the empty string as its
e-tag and the run still completes with every part. -/
theorem missing_etag_ok (file_size j : Nat) (etagf : Int → Option String)
    (p : UploadPlanData) (hp : plan file_size CHUNK_SIZE = .ok p)
    (hj : j < p.chunk_count) (he : etagf ((j : Int) + 1) = none) :
    ∃ parts,
      (upload_file file_size (fun pn => .success (etagf pn))).result =
        .ok parts ∧
      parts.length = p.chunk_count ∧
      parts[j]? = some { e_tag := "", part_number := (j : Int) + 1 } := by
  obtain ⟨hpe, h0, hmax⟩ := plan_ok hp
  have hccmax : p.chunk_count ≤ MAX_CHUNKS := by rw [hpe]; exact hmax
  have hM : MAX_CHUNKS = 10000 := rfl
  refine ⟨_, upload_file_success_result file_size etagf p hp, by simp, ?_⟩
  rw [List.getElem?_map, List.getElem?_range hj]
  simp only [Option.map_some']
  rw [part_number_eq (by omega), he]
  rfl

theorem missing_etag_ok_witness :
    plan 7 CHUNK_SIZE = .ok { chunk_count := 1, size_of_last_chunk := 7 } ∧
    0 < ({ chunk_count := 1, size_of_last_chunk := 7 } :
        UploadPlanData).chunk_count ∧
    (fun _ => (none : Option String)) (((0 : Nat) : Int) + 1) = none ∧
    (∃ parts,
      (upload_file 7 (fun pn =>
          .success ((fun _ => (none : Option String)) pn))).result =
        .ok parts ∧
      parts.length = ({ chunk_count := 1, size_of_last_chunk := 7 } :
          UploadPlanData).chunk_count ∧
      parts[(0 : Nat)]? =
        some { e_tag := "", part_number := ((0 : Nat) : Int) + 1 }) :=
  ⟨by decide, by decide, rfl,
    missing_etag_ok 7 0 (fun _ => (none : Option String))
      { chunk_count := 1, size_of_last_chunk := 7 } (by decide) (by decide)
      rfl⟩

/-- C6: if the upload of part `j` fails (parts before `j` succeed), the
run aborts at part `j`: the part-upload calls made are exactly for part
numbers `1..j` (so no later part is attempted), the error surfaced is
the part-upload failure, and no finalize call is made. -/
theorem part_failure_aborts (file_size j : Nat)
    (etagf : Int → Option String) (p : UploadPlanData)
    (hp : plan file_size CHUNK_SIZE = .ok p)
    (hj1 : 1 ≤ j) (hj2 : j ≤ p.chunk_count) :
    (upload_file file_size
        (fun pn => if pn < (j : Int) then .success (etagf pn)
          else .failure)).result = .error .partUploadFailed ∧
    (uploadCalls (upload_file file_size
        (fun pn => if pn < (j : Int) then .success (etagf pn)
          else .failure)).trace).map Prod.fst =
      (List.range j).map (fun (i : Nat) => (i : Int) + 1) ∧
    ∀ ps, Event.completeMultipartUpload ps ∉
      (upload_file file_size
        (fun pn => if pn < (j : Int) then .success (etagf pn)
          else .failure)).trace := by
  obtain ⟨hpe, h0, hmax⟩ := plan_ok hp
  have hccmax : p.chunk_count ≤ MAX_CHUNKS := by rw [hpe]; exact hmax
  have hM : MAX_CHUNKS = 10000 := rfl
  obtain ⟨hn, hcalls⟩ :=
    runParts_fail_at etagf p.chunk_count p.size_of_last_chunk j hj2 hccmax
      p.chunk_count 0 (by omega) (by omega)
  rw [upload_file_of_runParts_none hp hn]
  rw [Nat.sub_zero, ← List.range_eq_range'] at hcalls
  refine ⟨rfl, ?_, ?_⟩
  · simp only [uploadCalls, List.filterMap_cons] at hcalls ⊢
    rw [hcalls]
    apply List.map_congr_left
    intro a ha
    rw [List.mem_range] at ha
    exact part_number_eq (by omega)
  · intro ps
    simp only [List.mem_cons, not_or]
    exact ⟨by simp, runParts_not_complete _ _ _ _ _ ps⟩

theorem part_failure_aborts_witness :
    plan (5 * CHUNK_SIZE) CHUNK_SIZE =
      .ok { chunk_count := 5, size_of_last_chunk := CHUNK_SIZE } ∧
    1 ≤ 2 ∧
    2 ≤ ({ chunk_count := 5, size_of_last_chunk := CHUNK_SIZE } :
        UploadPlanData).chunk_count ∧
    ((upload_file (5 * CHUNK_SIZE)
        (fun pn => if pn < ((2 : Nat) : Int)
          then .success ((fun _ => (none : Option String)) pn)
          else .failure)).result = .error .partUploadFailed ∧
      (uploadCalls (upload_file (5 * CHUNK_SIZE)
          (fun pn => if pn < ((2 : Nat) : Int)
            then .success ((fun _ => (none : Option String)) pn)
            else .failure)).trace).map Prod.fst =
        (List.range 2).map (fun (i : Nat) => (i : Int) + 1) ∧
      ∀ ps, Event.completeMultipartUpload ps ∉
        (upload_file (5 * CHUNK_SIZE)
          (fun pn => if pn < ((2 : Nat) : Int)
            then .success ((fun _ => (none : Option String)) pn)
            else .failure)).trace) :=
  ⟨by decide, by decide, by decide,
    part_failure_aborts (5 * CHUNK_SIZE) 2 (fun _ => (none : Option String))
      { chunk_count := 5, size_of_last_chunk := CHUNK_SIZE }
      (by decide) (by decide) (by decide)⟩

/-- C7: on a full run (every part upload succeeds) the reported progress
positions are non-decreasing, each bounded by `total_size`, and the last
reported position equals `total_size`. -/
theorem progress_monotone (file_size : Nat) (etagf : Int → Option String)
    (p : UploadPlanData) (hp : plan file_size CHUNK_SIZE = .ok p) :
    List.Pairwise (· ≤ ·)
      (positions
        (upload_file file_size (fun pn => .success (etagf pn))).trace) ∧
    (∀ x ∈ positions
        (upload_file file_size (fun pn => .success (etagf pn))).trace,
      x ≤ file_size) ∧
    (positions
        (upload_file file_size
          (fun pn => .success (etagf pn))).trace).getLast?
      = some file_size := by
  obtain ⟨hpe, h0, hmax⟩ := plan_ok hp
  have hC : 0 < CHUNK_SIZE := by decide
  obtain ⟨hcc1, hsum, hlast0, hlastC⟩ := planChunks_inv h0 hC
  rw [← hpe] at hcc1 hsum hlast0 hlastC
  rw [upload_file_success_positions file_size etagf p hp]
  have hbound : ∀ i, i < p.chunk_count →
      i * CHUNK_SIZE + thisChunk p.chunk_count p.size_of_last_chunk i ≤
        file_size := by
    intro i hi
    by_cases hh : p.chunk_count - 1 = i
    · rw [← hh]
      simp only [thisChunk, if_pos rfl]
      exact Nat.le_of_eq hsum
    · simp only [thisChunk, if_neg hh]
      calc i * CHUNK_SIZE + CHUNK_SIZE = (i + 1) * CHUNK_SIZE := by ring
        _ ≤ (p.chunk_count - 1) * CHUNK_SIZE :=
            Nat.mul_le_mul_right CHUNK_SIZE (by omega)
        _ ≤ (p.chunk_count - 1) * CHUNK_SIZE + p.size_of_last_chunk :=
            Nat.le_add_right _ _
        _ = file_size := hsum
  have hmono : ∀ i j, i < j → j < p.chunk_count →
      i * CHUNK_SIZE + thisChunk p.chunk_count p.size_of_last_chunk i ≤
        j * CHUNK_SIZE + thisChunk p.chunk_count p.size_of_last_chunk j := by
    intro i j hij hj
    have h1 : thisChunk p.chunk_count p.size_of_last_chunk i ≤ CHUNK_SIZE := by
      simp only [thisChunk]
      split
      · exact hlastC
      · exact le_refl _
    calc i * CHUNK_SIZE + thisChunk p.chunk_count p.size_of_last_chunk i
        ≤ i * CHUNK_SIZE + CHUNK_SIZE := Nat.add_le_add_left h1 _
      _ = (i + 1) * CHUNK_SIZE := by ring
      _ ≤ j * CHUNK_SIZE := Nat.mul_le_mul_right CHUNK_SIZE (by omega)
      _ ≤ j * CHUNK_SIZE + thisChunk p.chunk_count p.size_of_last_chunk j :=
          Nat.le_add_right _ _
  refine ⟨?_, ?_, ?_⟩
  · rw [List.pairwise_map]
    exact (List.pairwise_lt_range p.chunk_count).imp_of_mem
      (fun ha hb hab => hmono _ _ hab (List.mem_range.mp hb))
  · intro x hx
    rw [List.mem_map] at hx
    obtain ⟨i, hi, rfl⟩ := hx
    exact hbound i (List.mem_range.mp hi)
  · obtain ⟨m, hm⟩ : ∃ m, p.chunk_count = m + 1 :=
      ⟨p.chunk_count - 1, by omega⟩
    rw [hm] at hsum ⊢
    rw [List.range_succ, List.map_append]
    simp only [List.map_cons, List.map_nil]
    rw [List.getLast?_concat]
    simp only [thisChunk, Nat.add_sub_cancel, eq_self_iff_true, if_true]
    rw [Nat.add_sub_cancel] at hsum
    rw [hsum]

theorem progress_monotone_witness :
    plan 7 CHUNK_SIZE = .ok { chunk_count := 1, size_of_last_chunk := 7 } ∧
    (List.Pairwise (· ≤ ·)
      (positions (upload_file 7 (fun pn =>
        .success ((fun _ => (none : Option String)) pn))).trace) ∧
    (∀ x ∈ positions (upload_file 7 (fun pn =>
        .success ((fun _ => (none : Option String)) pn))).trace,
      x ≤ 7) ∧
    (positions (upload_file 7 (fun pn =>
        .success ((fun _ => (none : Option String)) pn))).trace).getLast?
      = some 7) :=
  ⟨by decide,
    progress_monotone 7 (fun _ => (none : Option String))
      { chunk_count := 1, size_of_last_chunk := 7 } (by decide)⟩

/-- C8: whenever the finalize call is made, the completed-parts list it
receives has part numbers exactly `1..chunk_count` in ascending order
(no duplicates, no gaps). -/
theorem finalize_parts (file_size : Nat) (sink : Int → UploadOutcome)
    (ps : List CompletedPart)
    (hmem : Event.completeMultipartUpload ps ∈
      (upload_file file_size sink).trace) :
    ps.map CompletedPart.part_number =
      (List.range (planChunks file_size CHUNK_SIZE).chunk_count).map
        (fun (i : Nat) => (i : Int) + 1) ∧
    List.Pairwise (· < ·) (ps.map CompletedPart.part_number) := by
  have hM : MAX_CHUNKS = 10000 := rfl
  simp only [upload_file] at hmem
  split at hmem
  · simp at hmem
  · split at hmem
    · simp at hmem
    · rename_i h0 hmaxlt
      rcases hr : (runParts sink (planChunks file_size CHUNK_SIZE).chunk_count
          (planChunks file_size CHUNK_SIZE).size_of_last_chunk 0
          (planChunks file_size CHUNK_SIZE).chunk_count).2 with _ | parts
      · rw [hr] at hmem
        simp only [List.cons_append, List.nil_append, List.mem_cons] at hmem
        rcases hmem with h | h
        · exact absurd h (by simp)
        · exact absurd h (runParts_not_complete _ _ _ _ _ ps)
      · rw [hr] at hmem
        simp only [List.cons_append, List.nil_append, List.mem_cons,
          List.mem_append, List.mem_singleton, List.not_mem_nil,
          or_false] at hmem
        rcases hmem with h | h | h
        · exact absurd h (by simp)
        · exact absurd h (runParts_not_complete _ _ _ _ _ ps)
        · have hps : ps = parts := by
            injection h
          subst hps
          have hnum := runParts_some_numbers sink
            (planChunks file_size CHUNK_SIZE).chunk_count
            (planChunks file_size CHUNK_SIZE).size_of_last_chunk
            (planChunks file_size CHUNK_SIZE).chunk_count 0 ps hr
          rw [← List.range_eq_range'] at hnum
          have hconv : (List.range
              (planChunks file_size CHUNK_SIZE).chunk_count).map part_number =
              (List.range (planChunks file_size CHUNK_SIZE).chunk_count).map
                (fun (i : Nat) => (i : Int) + 1) :=
            map_part_number_range (by omega)
          refine ⟨hnum.trans hconv, ?_⟩
          rw [hnum.trans hconv, List.pairwise_map]
          exact (List.pairwise_lt_range _).imp (fun h => by omega)

theorem finalize_parts_witness :
    Event.completeMultipartUpload [{ e_tag := "", part_number := 1 }] ∈
      (upload_file 7 (fun _ => UploadOutcome.success none)).trace ∧
    (([{ e_tag := "", part_number := (1 : Int) }] :
        List CompletedPart).map CompletedPart.part_number =
      (List.range (planChunks 7 CHUNK_SIZE).chunk_count).map
        (fun (i : Nat) => (i : Int) + 1) ∧
    List.Pairwise (· < ·)
      (([{ e_tag := "", part_number := (1 : Int) }] :
        List CompletedPart).map CompletedPart.part_number)) :=
  ⟨by decide,
    finalize_parts 7 (fun _ => UploadOutcome.success none)
      [{ e_tag := "", part_number := 1 }] (by decide)⟩
